import Mathlib

/-!
Verification of the shared-memory IPC core of natyamatsya/cpp-ipc.

Shallow embedding of the components the claims are about:

* the SPSC ring buffer of cpp/libipc/include/libipc/proto/shm_ring.h;
* the service registry of include/libipc/proto/service_registry.h;
* the service group supervisor of include/libipc/proto/service_group.h;
* the POSIX shared-memory size computation of
  src/libipc/platform/posix/shm_posix.cpp;
* the ulock-based semaphore, mutex and condition variable of
  src/libipc/platform/apple/{semaphore_impl.h, mutex.h, condition.h}.

Pure computations are translated directly.  Code that blocks on the kernel
(ulock wait, deadlines) is embedded as a fuel-bounded interpreter whose
kernel answers, clock answers and shared-memory observations come from an
explicit environment record, so every run of the interpreter corresponds to
one possible scheduling of the real code.
-/

namespace IpcProof

/-!
## SPSC ring buffer — shm_ring.h

The C++ template shm_ring<T, N> keeps two 64-bit monotonically increasing
indices write_idx and read_idx in a shared header plus N slots, N a power of
two.  We model the monotonically increasing indices as unbounded naturals:
the stored uint64_t values are these naturals mod 2^64, and every
computation the code performs on them (w - r, + 1, w & (N - 1)) agrees with
the unbounded model as long as w - r stays at most N (which is far below
2^64); the reachable-state invariant of claim C4 maintains exactly that, so
the abstraction is faithful on every reachable state.  The slot array is a
list; the masked index w & (N - 1) is written Nat.land w (N - 1) exactly as
in the source (mask = N - 1).
-/

structure RingState (T : Type) (N : Nat) where
  write_idx : Nat
  read_idx : Nat
  slots : List T
deriving DecidableEq

/-- Initial state after open_or_create: both indices 0, slots zeroed. -/
def ring_init (T : Type) [Inhabited T] (N : Nat) : RingState T N :=
  ⟨0, 0, List.replicate N default⟩

/-- write_slot: the index of the next writable slot, or none if the ring is
full (w - r >= N).  Mirrors shm_ring::write_slot. -/
def write_slot {T : Type} {N : Nat} (s : RingState T N) : Option Nat :=
  if N ≤ s.write_idx - s.read_idx then none
  else some (Nat.land s.write_idx (N - 1))

/-- write_commit: advance the write index by one (unconditionally). -/
def write_commit {T : Type} {N : Nat} (s : RingState T N) : RingState T N :=
  ⟨s.write_idx + 1, s.read_idx, s.slots⟩

/-- shm_ring::write — the convenience form: write_slot, fill, write_commit;
returns false (leaving the ring unchanged) when full. -/
def ring_write {T : Type} {N : Nat} (s : RingState T N) (item : T) :
    Bool × RingState T N :=
  match write_slot s with
  | none => (false, s)
  | some i => (true, write_commit ⟨s.write_idx, s.read_idx, s.slots.set i item⟩)

/-- shm_ring::write_overwrite: if full (w - r >= N) first advance read_idx by
one (dropping the oldest record), then store at slot w & (N - 1) and advance
write_idx by one. -/
def write_overwrite {T : Type} {N : Nat} (s : RingState T N) (item : T) :
    RingState T N :=
  let w := s.write_idx
  let r := s.read_idx
  let r2 := if N ≤ w - r then r + 1 else r
  ⟨w + 1, r2, s.slots.set (Nat.land w (N - 1)) item⟩

/-- read_slot: the record at the next readable slot, or none if empty
(r >= w).  Mirrors shm_ring::read_slot. -/
def read_slot {T : Type} {N : Nat} [Inhabited T] (s : RingState T N) :
    Option T :=
  if s.write_idx ≤ s.read_idx then none
  else some (s.slots.getD (Nat.land s.read_idx (N - 1)) default)

/-- read_commit: advance the read index by one (unconditionally). -/
def read_commit {T : Type} {N : Nat} (s : RingState T N) : RingState T N :=
  ⟨s.write_idx, s.read_idx + 1, s.slots⟩

/-- shm_ring::read — the convenience form: read_slot, copy out, read_commit;
returns none (leaving the ring unchanged) when empty. -/
def ring_read {T : Type} {N : Nat} [Inhabited T] (s : RingState T N) :
    Option T × RingState T N :=
  match read_slot s with
  | none => (none, s)
  | some v => (some v, read_commit s)

/-- shm_ring::available: w - r (the uint64 subtraction never wraps on
reachable states because read_idx <= write_idx there, claim C4). -/
def ring_available {T : Type} {N : Nat} (s : RingState T N) : Nat :=
  s.write_idx - s.read_idx

/-- Drain the ring with repeated shm_ring::read calls until a read fails,
collecting the records read, in order (fuel-bounded). -/
def ring_drain {T : Type} {N : Nat} [Inhabited T] :
    Nat → RingState T N → List T
  | 0, _ => []
  | fuel + 1, s =>
    match ring_read s with
    | (none, _) => []
    | (some v, s2) => v :: ring_drain fuel s2

/-- One producer or consumer operation of the shm_ring API.  slotWrite is
the split pair write_slot / write_commit used as documented (commit only
after a successful write_slot); slotRead likewise. -/
inductive RingOp (T : Type) where
  | slotWrite (item : T)
  | write (item : T)
  | overwrite (item : T)
  | slotRead
  | read
deriving DecidableEq

/-- Effect of one operation on the ring state. -/
def ring_step {T : Type} {N : Nat} [Inhabited T]
    (s : RingState T N) : RingOp T → RingState T N
  | .slotWrite item =>
    match write_slot s with
    | none => s
    | some i => write_commit ⟨s.write_idx, s.read_idx, s.slots.set i item⟩
  | .write item => (ring_write s item).2
  | .overwrite item => write_overwrite s item
  | .slotRead =>
    match read_slot s with
    | none => s
    | some _ => read_commit s
  | .read => (ring_read s).2

/-- Run a sequence of ring operations from a given state. -/
def ring_exec {T : Type} {N : Nat} [Inhabited T]
    (ops : List (RingOp T)) (s : RingState T N) : RingState T N :=
  ops.foldl ring_step s

/-- The reachable-state invariant of the ring (spec section 3). -/
def RingInv {T : Type} {N : Nat} (s : RingState T N) : Prop :=
  s.read_idx ≤ s.write_idx ∧ s.write_idx - s.read_idx ≤ N

/-!
## Service registry — service_registry.h

The registry is a fixed table of 32 service_entry records behind a
test-and-set spinlock.  Every operation holds the spinlock for the whole
scan, so the operations are sequential and we model them as pure functions
of the entry table.  An entry is a POD of three 64-byte strings (strncpy
with at most max_name_len - 1 = 63 characters copied into a zeroed array),
a pid, a timestamp and a flags word.  The OS liveness probe
(kill(pid, 0) == 0 || errno != ESRCH) is an oracle alive : Int -> Bool
consulted for positive pids; is_alive returns false outright for pid <= 0.
The wall clock (std::time) is a parameter now.
-/

def max_services : Nat := 32
def max_name_len : Nat := 64

structure ServiceEntry where
  name : String
  control_channel : String
  reply_channel : String
  pid : Int
  registered_at : Int
  flags : Nat
deriving DecidableEq

/-- A zeroed slot (memset of the entry). -/
def emptyEntry : ServiceEntry := ⟨"", "", "", 0, 0, 0⟩

/-- service_entry::active — pid > 0 and name[0] != 0. -/
def entryActive (e : ServiceEntry) : Bool :=
  decide (0 < e.pid) && !(e.name == "")

/-- service_entry::is_alive — false for pid <= 0, else the OS probe. -/
def entryAlive (alive : Int → Bool) (e : ServiceEntry) : Bool :=
  if e.pid ≤ 0 then false else alive e.pid

/-- strncpy(dst, src, max_name_len - 1) into a zeroed 64-byte array keeps
the first 63 characters. -/
def truncName (s : String) : String := s.take (max_name_len - 1)

/-- service_registry::fill_entry — memset the slot, copy the strings,
set pid and the wall-clock timestamp, flags zeroed. -/
def fill_entry (now : Int) (name ctrl reply : String) (pid : Int) :
    ServiceEntry :=
  ⟨truncName name, truncName ctrl, truncName reply, pid, now, 0⟩

/-- The first-loop predicate of register_service and find:
e.active() && strcmp(e.name, name) == 0. -/
def matchPred (name : String) (e : ServiceEntry) : Bool :=
  entryActive e && (e.name == name)

/-- The second-loop predicate of register_service:
!e.active() || !e.is_alive(). -/
def slotFree (alive : Int → Bool) (e : ServiceEntry) : Bool :=
  !entryActive e || !entryAlive alive e

/-- Index of the first list element satisfying p (the for-loops of
service_registry scan indices 0,1,... and act on the first hit). -/
def scanIdx {α : Type} (p : α → Bool) : List α → Option Nat
  | [] => none
  | x :: xs => if p x then some 0 else (scanIdx p xs).map (· + 1)

/-- service_registry::register_service on the entry table.  First loop:
the first active entry with the same name — alive rejects, dead is reused
in place (count unchanged).  Second loop: the first empty-or-dead slot is
filled and count is bumped while below max_services.  No slot: failure. -/
def register_service (alive : Int → Bool) (now : Int)
    (name ctrl reply : String) (pid : Int)
    (l : List ServiceEntry) (count : Nat) :
    Bool × List ServiceEntry × Nat :=
  if name = "" then (false, l, count)
  else
    match scanIdx (matchPred name) l with
    | some i =>
      if entryAlive alive (l.getD i emptyEntry) then (false, l, count)
      else (true, l.set i (fill_entry now name ctrl reply pid), count)
    | none =>
      match scanIdx (fun e => slotFree alive e) l with
      | some j =>
        (true, l.set j (fill_entry now name ctrl reply pid),
         if count < max_services then count + 1 else count)
      | none => (false, l, count)

/-- service_registry::find on the entry table: scan for
active && strcmp == 0; a dead hit is zeroed and the scan continues; a live
hit is returned (copied) with the rest of the table untouched. -/
def registry_find (alive : Int → Bool) (name : String) :
    List ServiceEntry → Option ServiceEntry × List ServiceEntry
  | [] => (none, [])
  | e :: es =>
    if matchPred name e then
      if entryAlive alive e then (some e, e :: es)
      else
        ((registry_find alive name es).1,
         emptyEntry :: (registry_find alive name es).2)
    else
      ((registry_find alive name es).1, e :: (registry_find alive name es).2)

/-- Well-formedness the registry maintains from an empty table: at most one
active entry carries a given name (register never creates a duplicate: a
matching active entry is either rejected or reused in place). -/
def NamesOk (l : List ServiceEntry) : Prop :=
  ∀ i j, i < l.length → j < l.length → i ≠ j →
    entryActive (l.getD i emptyEntry) = true →
    entryActive (l.getD j emptyEntry) = true →
    (l.getD i emptyEntry).name ≠ (l.getD j emptyEntry).name

/-!
## Service group — service_group.h

The supervisor state per instance is its role and a process handle; the
only facts health_check reads from the handle are proc.is_alive() probes,
modelled as a Boolean snapshot per instance (aliveness does not change
during the call in the sequential model).  spawn_instance performs OS
process creation and registry polling; its success or failure for slot j is
abstracted by an oracle respawnOk : Nat -> Bool, and a successful spawn
leaves the instance an alive standby exactly as spawn_instance does (role
set to standby after the instance shows up in the registry). -/

inductive InstanceRole where
  | primary
  | standby
  | dead
deriving DecidableEq

structure MInstance where
  role : InstanceRole
  alive : Bool
deriving DecidableEq

/-- List map that passes the element index, mirroring the indexed for-loops
of service_group. -/
def mapWithIdx {α β : Type} (f : Nat → α → β) : Nat → List α → List β
  | _, [] => []
  | k, x :: xs => f k x :: mapWithIdx f (k + 1) xs

/-- The per-instance effect of the scan loop of health_check: a non-dead
instance that is no longer alive is marked dead; others are untouched. -/
def scan_mark (i : MInstance) : MInstance :=
  if i.role ≠ InstanceRole.dead ∧ i.alive = false
  then ⟨InstanceRole.dead, i.alive⟩ else i

/-- The failover flag computed by the scan loop: some scanned (non-dead)
instance was primary and is no longer alive. -/
def failover_needed (l : List MInstance) : Bool :=
  l.any (fun i => i.role == InstanceRole.primary && !i.alive)

/-- The scan loop of health_check applied to all instances. -/
def scan_instances (l : List MInstance) : List MInstance := l.map scan_mark

/-- Index of the first alive instance (the election scan). -/
def first_alive_idx (l : List MInstance) : Option Nat :=
  scanIdx (fun i => i.alive) l

/-- The per-instance effect of elect_primary once the first alive index i0
is known: the winner becomes primary, every other alive instance is demoted
to standby, dead instances are untouched. -/
def elect_fun (i0 : Nat) (j : Nat) (inst : MInstance) : MInstance :=
  if inst.alive then
    (if j = i0 then ⟨InstanceRole.primary, inst.alive⟩
     else ⟨InstanceRole.standby, inst.alive⟩)
  else inst

/-- service_group::elect_primary: first alive instance wins; on success the
roles are reassigned and primary_idx is set, otherwise (all dead) nothing
changes and primary_idx is cleared. -/
def elect_primary_group (l : List MInstance) : List MInstance × Option Nat :=
  match first_alive_idx l with
  | none => (l, none)
  | some i0 => (mapWithIdx (elect_fun i0) 0 l, some i0)

/-- The per-instance effect of respawn_dead: a dead slot whose spawn
succeeds becomes an alive standby; a failed spawn leaves it dead. -/
def respawn_fun (respawnOk : Nat → Bool) (j : Nat) (inst : MInstance) :
    MInstance :=
  if inst.role = InstanceRole.dead ∧ respawnOk j = true
  then ⟨InstanceRole.standby, true⟩ else inst

/-- service_group::respawn_dead over all instances. -/
def respawn_dead (respawnOk : Nat → Bool) (l : List MInstance) :
    List MInstance :=
  mapWithIdx (respawn_fun respawnOk) 0 l

structure GroupSt where
  instances : List MInstance
  primary_idx : Option Nat
deriving DecidableEq

/-- service_group::health_check: scan (marking newly dead instances and
detecting a dead primary); on failover run elect_primary — if it fails
(all dead) return true at once, else respawn dead slots when auto_respawn
and return true; with no failover, respawn dead slots when auto_respawn and
return false. -/
def health_check (respawnOk : Nat → Bool) (autoRespawn : Bool) (g : GroupSt) :
    Bool × GroupSt :=
  if failover_needed g.instances then
    match (elect_primary_group (scan_instances g.instances)).2 with
    | none => (true, ⟨(elect_primary_group (scan_instances g.instances)).1, none⟩)
    | some i0 =>
      (true,
       ⟨(if autoRespawn
         then respawn_dead respawnOk
           (elect_primary_group (scan_instances g.instances)).1
         else (elect_primary_group (scan_instances g.instances)).1),
        some i0⟩)
  else
    (false,
     ⟨(if autoRespawn
       then respawn_dead respawnOk (scan_instances g.instances)
       else scan_instances g.instances),
      g.primary_idx⟩)

/-!
## POSIX shared-memory segment layout — shm_posix.cpp

info_t holds a single std::atomic of int32_t, so sizeof(info_t) =
alignof(info_t) = 4 on every ABI the code targets.  calc_size rounds the
requested payload up to a multiple of alignof(info_t) and appends space for
the attach counter; acc_of finds the counter at (total size) -
sizeof(info_t).  In the creator path of ipc::shm::get_mem (nonzero declared
size) the mapped total is exactly calc_size of the request; the zero-size
path (open mode) queries fstat instead and is outside claim C8. -/

def info_size : Nat := 4

def info_align : Nat := 4

/-- calc_size of shm_posix.cpp: (((size - 1) / alignof(info_t)) + 1) *
alignof(info_t) + sizeof(info_t). -/
def calc_size (size : Nat) : Nat :=
  (((size - 1) / info_align) + 1) * info_align + info_size

/-- Offset of the attach counter inside the mapped segment (acc_of):
total size minus sizeof(info_t). -/
def acc_offset (total : Nat) : Nat := total - info_size

/-- Total mapped size of a created segment in get_mem: a nonzero declared
size is replaced by calc_size and that many bytes are mapped. -/
def get_mem_total (requested : Nat) : Option Nat :=
  if requested = 0 then none else some (calc_size requested)

/-!
## Counting semaphore — semaphore_impl.h

The shared state is one 32-bit atomic count.  wait runs an outer loop: load
the count; while positive, CAS it down by one (success returns true); at
zero, check the deadline, park on the count with expected value 0 and
retry.  The loads the loop observes (including the effect of concurrent
posts and of CAS interference) are an oracle load : Nat -> Nat indexed by
the iteration; the successful CAS decrements exactly the observed positive
value.  parkRetry true stands for a park that returned woken or EINTR (the
code retries), false for ETIMEDOUT or another error (the timed branch gives
up).  post performs n single fetch_add(1) steps on the uint32, each
wrapping mod 2^32. -/

def U32 : Nat := 2 ^ 32

structure SemEnv where
  load : Nat → Nat
  deadlineHit : Nat → Bool
  parkRetry : Nat → Bool

inductive SemResult where
  | ok (newCount : Nat)
  | timedOut
deriving DecidableEq

/-- semaphore::wait — fuel-bounded interpreter; k counts the outer
iterations; ok carries the value the successful CAS wrote. -/
def semaphore_wait (env : SemEnv) (hasDeadline : Bool) :
    Nat → Nat → Option SemResult
  | 0, _ => none
  | fuel + 1, k =>
    if 0 < env.load k then some (SemResult.ok (env.load k - 1))
    else if hasDeadline then
      (if env.deadlineHit k then some SemResult.timedOut
       else if env.parkRetry k then semaphore_wait env hasDeadline fuel (k + 1)
       else some SemResult.timedOut)
    else semaphore_wait env hasDeadline fuel (k + 1)

/-- One fetch_add(1) on the 32-bit count. -/
def post_step (c : Nat) : Nat := (c + 1) % U32

/-- semaphore::post — n single increments, each waking one waiter. -/
def semaphore_post (c : Nat) : Nat → Nat
  | 0 => c
  | n + 1 => semaphore_post (post_step c) n

/-- Atomic-effect view of one semaphore operation on the count, as
established for wait by theorem C9 (a successful wait decrements exactly
one observed positive value, a timed-out wait writes nothing). -/
inductive SemOp where
  | wait
  | post (n : Nat)

def sem_step (c : Nat) : SemOp → Nat
  | .wait => if 0 < c then c - 1 else c
  | .post n => semaphore_post c n

def sem_exec (ops : List SemOp) (c : Nat) : Nat := ops.foldl sem_step c

/-- The same operation semantics over unbounded integers: a run that never
wraps coincides with sem_exec, and its count never goes negative. -/
def sem_step_int (c : Int) : SemOp → Int
  | .wait => if 0 < c then c - 1 else c
  | .post n => c + n

def sem_exec_int (ops : List SemOp) (c : Int) : Int :=
  ops.foldl sem_step_int c

/-!
## Robust mutex — platform/apple/mutex.h

Shared state: state (0 unlocked, 1 locked, 2 locked with waiters) and
holder (owner PID, 0 when free).  is_process_alive probes the OS with
kill(pid, 0): alive when the call succeeds or sets an errno other than
ESRCH; pids <= 0 are never alive.  The verdict for positive pids is an
oracle alive : Int -> Bool.

mutex::lock is a loop on shared memory that other processes mutate
concurrently, so the interpreter below draws every observation the code
makes — CAS results in the spin phase, state loads, the CAS 1 to 2,
deadline checks, ulock_wait results, and the holder and exchanged-out state
a recovery attempt sees — from an environment of oracle streams, each
consumed by its own counter.  A run of the interpreter is one possible
schedule of the real loop under arbitrary interference.  The outcome of
every try_recover_dead_holder call is recorded in attempts, in order, and
the tried flag mirrors the tried_recovery local of the source. -/

structure RecoverOutcome where
  success : Bool
  newState : Nat
  newHolder : Int
  wokeAll : Bool
deriving DecidableEq

/-- mutex::is_process_alive — kill(pid, 0) probe; pid <= 0 never alive. -/
def is_process_alive (alive : Int → Bool) (pid : Int) : Bool :=
  if pid ≤ 0 then false else alive pid

/-- mutex::try_recover_dead_holder given the holder value read and the old
state returned by the exchange: a zero holder (not held) or a live holder
fails without writing; a dead holder resets state to 0 and holder to 0 and
wakes all waiters exactly when the exchanged-out state was 2. -/
def try_recover_dead_holder (alive : Int → Bool) (holder : Int)
    (oldState : Nat) : RecoverOutcome :=
  if holder = 0 then ⟨false, oldState, holder, false⟩
  else if is_process_alive alive holder then ⟨false, oldState, holder, false⟩
  else ⟨true, 0, 0, decide (oldState = 2)⟩

structure LockEnv where
  cas : Nat → Bool
  load : Nat → Nat
  cas12 : Nat → Bool
  deadlineHit : Nat → Bool
  waitWoken : Nat → Bool
  recHolder : Nat → Int
  recOldState : Nat → Nat
  alive : Int → Bool

structure LockCtrs where
  casIdx : Nat
  loadIdx : Nat
  cas12Idx : Nat
  dlIdx : Nat
  waitIdx : Nat
  recIdx : Nat
  tried : Bool
  contended : Bool
  attempts : List Bool
deriving DecidableEq

def kMutexSpinCount : Nat := 40

/-- The spin phase of mutex::lock: up to n CAS attempts (0 to 1, or 0 to 2
once contended — the distinction only affects the value written, which the
environment already folds into the CAS outcome); returns whether one
succeeded and the next CAS stream position. -/
def spin_phase (env : LockEnv) : Nat → Nat → Bool × Nat
  | 0, k => (false, k)
  | n + 1, k => if env.cas k then (true, k + 1) else spin_phase env n (k + 1)

inductive TmDecision where
  | timedOut
  | retry
deriving DecidableEq

/-- The timeout block shared by the two deadline sites of mutex::lock:
if recovery was already tried, give up; otherwise mark it tried, run
try_recover_dead_holder once (recording its outcome) and retry on success,
give up on failure. -/
def deadline_step (env : LockEnv) (st : LockCtrs) : TmDecision × LockCtrs :=
  if st.tried = true then (TmDecision.timedOut, st)
  else
    ((if (try_recover_dead_holder env.alive (env.recHolder st.recIdx)
          (env.recOldState st.recIdx)).success = true
      then TmDecision.retry else TmDecision.timedOut),
     { st with
        tried := true
        recIdx := st.recIdx + 1
        attempts := st.attempts ++
          [(try_recover_dead_holder env.alive (env.recHolder st.recIdx)
             (env.recOldState st.recIdx)).success] })

/-- Outcome of one pass through the body of the acquisition loop: the lock
was acquired, the call timed out, or the loop goes around again. -/
inductive LockStep where
  | acquired (st : LockCtrs)
  | timeout (st : LockCtrs)
  | again (st : LockCtrs)
deriving DecidableEq

/-- The interpreter state carried by a loop outcome. -/
def LockStep.st : LockStep → LockCtrs
  | .acquired s => s
  | .timeout s => s
  | .again s => s

/-- Resolution of a reached deadline (both deadline sites of mutex::lock):
run the timeout block; retry means go around the loop again, otherwise
return TimedOut. -/
def dl_branch (env : LockEnv) (st : LockCtrs) : LockStep :=
  if (deadline_step env st).1 = TmDecision.retry
  then LockStep.again (deadline_step env st).2
  else LockStep.timeout (deadline_step env st).2

/-- One iteration of mutex::lock.  Phase 1: spin (a success returns
Acquired — the holder store is not part of the counter state).  Phase 2:
load state; 0 retries the spin; 1 attempts the CAS 1 to 2 and retries on
failure.  Then, with a finite deadline, a reached deadline runs the
timeout block; otherwise ulock_wait runs (consuming a deadline check for
the remaining-time computation first) and a timed-out wait runs the same
timeout block, while a woken or spurious wait just loops. -/
def lock_iter (env : LockEnv) (hasDeadline : Bool) (st0 : LockCtrs) :
    LockStep :=
  let sp := spin_phase env kMutexSpinCount st0.casIdx
  let st1 := { st0 with casIdx := sp.2 }
  if sp.1 = true then LockStep.acquired st1
  else
    let s := env.load st1.loadIdx
    let st2 := { st1 with loadIdx := st1.loadIdx + 1 }
    if s = 0 then LockStep.again st2
    else
      let pr := if s = 1
        then (env.cas12 st2.cas12Idx,
              { st2 with cas12Idx := st2.cas12Idx + 1 })
        else (true, st2)
      if pr.1 = false then LockStep.again pr.2
      else
        if hasDeadline = true then
          (if env.deadlineHit pr.2.dlIdx = true then
            dl_branch env { pr.2 with dlIdx := pr.2.dlIdx + 1 }
           else
            (let st4 : LockCtrs := { pr.2 with dlIdx := pr.2.dlIdx + 1 }
             let st5 : LockCtrs :=
               { st4 with waitIdx := st4.waitIdx + 1, contended := true }
             if env.waitWoken st4.waitIdx = false then dl_branch env st5
             else LockStep.again st5))
        else
          LockStep.again
            { pr.2 with waitIdx := pr.2.waitIdx + 1, contended := true }

/-- mutex::lock as a fuel-bounded iteration of lock_iter. -/
def lock_loop (env : LockEnv) (hasDeadline : Bool) :
    Nat → LockCtrs → Option Bool × LockCtrs
  | 0, st => (none, st)
  | fuel + 1, st =>
    match lock_iter env hasDeadline st with
    | LockStep.acquired st1 => (some true, st1)
    | LockStep.timeout st1 => (some false, st1)
    | LockStep.again st1 => lock_loop env hasDeadline fuel st1

def lockInit : LockCtrs := ⟨0, 0, 0, 0, 0, 0, false, false, []⟩

/-- mutex::lock entry point: run the loop from fresh counters,
tried_recovery false, not contended, no attempts recorded. -/
def mutex_lock (env : LockEnv) (hasDeadline : Bool) (fuel : Nat) :
    Option Bool × LockCtrs :=
  lock_loop env hasDeadline fuel lockInit

/-- The bookkeeping invariant of the interpreter: the number of recorded
recovery attempts is 1 when tried_recovery is set and 0 otherwise. -/
def AttOk (st : LockCtrs) : Prop :=
  st.attempts.length = (if st.tried = true then 1 else 0)

/-!
### mutex::try_lock — sequential model with explicit memory

try_lock touches shared memory only through try_lock_once (CAS 0 to 1),
try_recover_dead_holder and the holder store, with no sleeping, so the
uninterfered run is modelled with the memory explicit: a CAS succeeds
exactly when state = 0.  The result records how many recovery attempts and
CAS attempts the call made. -/

structure MutexMem where
  state : Nat
  holder : Int
deriving DecidableEq

structure TryLockRes where
  acquired : Bool
  mem : MutexMem
  recoveryAttempts : Nat
  casAttempts : Nat
  wokeAll : Bool
deriving DecidableEq

/-- mutex::try_lock_once on explicit memory: CAS state 0 to 1. -/
def try_lock_once_mem (m : MutexMem) : Bool × MutexMem :=
  if m.state = 0 then (true, ⟨1, m.holder⟩) else (false, m)

/-- Apply a recovery outcome to the memory: a successful recovery stored
state 0 and holder 0; a failed one wrote nothing. -/
def apply_recover (m : MutexMem) (o : RecoverOutcome) : MutexMem :=
  if o.success = true then ⟨o.newState, o.newHolder⟩ else m

/-!
## Condition variable — platform/apple/condition.h

Shared state: a 32-bit sequence counter seq and a waiter count.
condition::wait snapshots seq while still holding the mutex, unlocks the
mutex, increments waiters, then loops on __ulock_wait with the snapshot as
the expected value; it finally decrements waiters and reacquires the mutex
with an infinite wait (lockMutexInf below stands for
mtx.lock(invalid_value)).  A park outcome woken stands for a __ulock_wait
return of 0 or more (we were notified: the kernel only parks while seq
still equals the snapshot, so a return means the value changed or a wake
arrived), spurious for EINTR (the snapshot still matched and the sleep was
interrupted — the code loops again), and timedout for ETIMEDOUT or any
other error.  The timed branch checks the deadline before every park and
treats a non-EINTR error as a timeout; the infinite branch treats a
non-EINTR error conservatively as a wakeup.  Deadline answers and park
outcomes come from an oracle; the trace of actions the call performs on
the shared state and the mutex is returned with the result. -/

inductive ParkOutcome where
  | woken
  | spurious
  | timedout
deriving DecidableEq

structure CondEnv where
  dl : Nat → Bool
  park : Nat → ParkOutcome

structure CondState where
  seq : Nat
  waiters : Int
deriving DecidableEq

inductive CondAct where
  | loadSeq (v : Nat)
  | unlockMutex
  | incWaiters
  | parkOn (expected : Nat) (o : ParkOutcome)
  | checkDeadline
  | decWaiters
  | lockMutexInf
deriving DecidableEq

/-- The timed branch of condition::wait: check the deadline, park on seq
with the snapshot as expected value; woken exits notified, EINTR loops,
anything else exits timed out.  Returns (notified, actions performed). -/
def cond_loop_timed (env : CondEnv) (snap : Nat) :
    Nat → Nat → Option (Bool × List CondAct)
  | 0, _ => none
  | fuel + 1, k =>
    if env.dl k = true then some (false, [CondAct.checkDeadline])
    else
      match env.park k with
      | ParkOutcome.woken =>
        some (true,
          [CondAct.checkDeadline, CondAct.parkOn snap ParkOutcome.woken])
      | ParkOutcome.spurious =>
        (cond_loop_timed env snap fuel (k + 1)).map
          (fun r => (r.1, CondAct.checkDeadline ::
            CondAct.parkOn snap ParkOutcome.spurious :: r.2))
      | ParkOutcome.timedout =>
        some (false,
          [CondAct.checkDeadline, CondAct.parkOn snap ParkOutcome.timedout])

/-- The infinite branch: EINTR loops; any other return is treated as a
wakeup (the code sets notified and breaks). -/
def cond_loop_inf (env : CondEnv) (snap : Nat) :
    Nat → Nat → Option (Bool × List CondAct)
  | 0, _ => none
  | fuel + 1, k =>
    match env.park k with
    | ParkOutcome.woken =>
      some (true, [CondAct.parkOn snap ParkOutcome.woken])
    | ParkOutcome.spurious =>
      (cond_loop_inf env snap fuel (k + 1)).map
        (fun r => (r.1, CondAct.parkOn snap ParkOutcome.spurious :: r.2))
    | ParkOutcome.timedout =>
      some (true, [CondAct.parkOn snap ParkOutcome.timedout])

structure CondWaitRes where
  notified : Bool
  mutexHeld : Bool
  cv : CondState
  snapshot : Nat
  acts : List CondAct
deriving DecidableEq

/-- condition::wait — snapshot seq under the mutex, unlock, increment
waiters, run the park loop, decrement waiters, relock with infinite wait;
returns the loop verdict, the final mutex/cond state, the snapshot used as
every park's expected value, and the action trace. -/
def condition_wait (env : CondEnv) (isInf : Bool) (fuel : Nat)
    (cv : CondState) : Option CondWaitRes :=
  match (if isInf then cond_loop_inf env cv.seq fuel 0
         else cond_loop_timed env cv.seq fuel 0) with
  | none => none
  | some r =>
    some ⟨r.1, true, ⟨cv.seq, cv.waiters + 1 - 1⟩, cv.seq,
      [CondAct.loadSeq cv.seq, CondAct.unlockMutex, CondAct.incWaiters]
        ++ r.2 ++ [CondAct.decWaiters, CondAct.lockMutexInf]⟩

/-- mutex::try_lock: CAS 0 to 1; on success store the caller pid into
holder and return true.  On failure run try_recover_dead_holder once; only
if it recovered, retry the CAS once more (storing pid on success).
Otherwise return false leaving the memory untouched. -/
def mutex_try_lock (alive : Int → Bool) (pid : Int) (m : MutexMem) :
    TryLockRes :=
  if (try_lock_once_mem m).1 = true then
    ⟨true, ⟨(try_lock_once_mem m).2.state, pid⟩, 0, 1, false⟩
  else
    (if (try_recover_dead_holder alive m.holder m.state).success = true then
      (if (try_lock_once_mem
            (apply_recover m (try_recover_dead_holder alive m.holder m.state))).1
          = true then
        ⟨true,
         ⟨(try_lock_once_mem
            (apply_recover m (try_recover_dead_holder alive m.holder m.state))).2.state,
          pid⟩,
         1, 2, (try_recover_dead_holder alive m.holder m.state).wokeAll⟩
       else
        ⟨false,
         apply_recover m (try_recover_dead_holder alive m.holder m.state),
         1, 2, (try_recover_dead_holder alive m.holder m.state).wokeAll⟩)
     else ⟨false, m, 1, 1, false⟩)

end IpcProof

namespace IpcProof

theorem ring_step_inv {T : Type} {N : Nat} [Inhabited T]
    (s : RingState T N) (op : RingOp T) (h : RingInv s) :
    RingInv (ring_step s op) := by
  obtain ⟨h1, h2⟩ := h
  cases op with
  | slotWrite item =>
    by_cases hfull : N ≤ s.write_idx - s.read_idx
    · have hs : ring_step s (RingOp.slotWrite item) = s := by
        simp [ring_step, write_slot, hfull]
      rw [hs]
      exact ⟨h1, h2⟩
    · simp [ring_step, write_slot, hfull, write_commit, RingInv]
      omega
  | write item =>
    by_cases hfull : N ≤ s.write_idx - s.read_idx
    · have hs : ring_step s (RingOp.write item) = s := by
        simp [ring_step, ring_write, write_slot, hfull]
      rw [hs]
      exact ⟨h1, h2⟩
    · simp [ring_step, ring_write, write_slot, hfull, write_commit, RingInv]
      omega
  | overwrite item =>
    by_cases hfull : N ≤ s.write_idx - s.read_idx
    · simp [ring_step, write_overwrite, hfull, RingInv]
      omega
    · simp [ring_step, write_overwrite, hfull, RingInv]
      omega
  | slotRead =>
    by_cases hempty : s.write_idx ≤ s.read_idx
    · have hs : ring_step s RingOp.slotRead = s := by
        simp [ring_step, read_slot, hempty]
      rw [hs]
      exact ⟨h1, h2⟩
    · simp [ring_step, read_slot, hempty, read_commit, RingInv]
      omega
  | read =>
    by_cases hempty : s.write_idx ≤ s.read_idx
    · have hs : ring_step s RingOp.read = s := by
        simp [ring_step, ring_read, read_slot, hempty]
      rw [hs]
      exact ⟨h1, h2⟩
    · simp [ring_step, ring_read, read_slot, hempty, read_commit, RingInv]
      omega

theorem ring_exec_inv {T : Type} {N : Nat} [Inhabited T]
    (ops : List (RingOp T)) (s : RingState T N) (h : RingInv s) :
    RingInv (ring_exec ops s) := by
  induction ops generalizing s with
  | nil => exact h
  | cons op rest ih => exact ih (ring_step s op) (ring_step_inv s op h)

/-- C4: starting from the initialized state, after every sequence of
producer and consumer operations (write_slot/write_commit, write,
write_overwrite, read_slot/read_commit, read) the invariants
read_idx <= write_idx and write_idx - read_idx <= N hold, and available()
returns exactly write_idx - read_idx. -/
theorem C4_ring_invariants (T : Type) [Inhabited T] (N : Nat)
    (ops : List (RingOp T)) :
    RingInv (ring_exec ops (ring_init T N)) ∧
    ring_available (ring_exec ops (ring_init T N)) =
      (ring_exec ops (ring_init T N)).write_idx -
      (ring_exec ops (ring_init T N)).read_idx := by
  refine ⟨ring_exec_inv ops (ring_init T N) ⟨Nat.le_refl 0, by simp [ring_init]⟩, rfl⟩

/-- C1: on a freshly initialized ring of capacity 4 over 64-bit records,
write_overwrite of 1,2,3,4,5 followed by draining reads yields exactly
2,3,4,5 and a further read fails; and in general write_overwrite advances
read_idx by exactly one if and only if the ring is full
(write_idx - read_idx >= capacity), stores the record at slot
write_idx & (capacity - 1), and advances write_idx by one. -/
theorem C1_write_overwrite :
    (ring_drain 10
        ([1, 2, 3, 4, 5].foldl write_overwrite (ring_init Nat 4)) =
      [2, 3, 4, 5]
     ∧ (ring_read (ring_exec (List.replicate 4 RingOp.read)
          ([1, 2, 3, 4, 5].foldl write_overwrite (ring_init Nat 4)))).1 =
        none)
    ∧ (∀ (T : Type) (N : Nat) (s : RingState T N) (item : T),
        ((write_overwrite s item).read_idx = s.read_idx + 1 ↔
          N ≤ s.write_idx - s.read_idx)
        ∧ (write_overwrite s item).write_idx = s.write_idx + 1
        ∧ (write_overwrite s item).slots =
            s.slots.set (Nat.land s.write_idx (N - 1)) item) := by
  refine ⟨⟨by decide, by decide⟩, ?_⟩
  intro T N s item
  refine ⟨?_, rfl, rfl⟩
  simp only [write_overwrite]
  split
  · next hfull => simpa using hfull
  · next hnot =>
    constructor
    · intro h
      omega
    · intro h
      exact absurd h hnot

theorem scanIdx_eq_none_iff {α : Type} (p : α → Bool) (l : List α) :
    scanIdx p l = none ↔ ∀ x ∈ l, p x = false := by
  induction l with
  | nil => simp [scanIdx]
  | cons x xs ih =>
    by_cases hx : p x
    · simp [scanIdx, hx]
    · simp [scanIdx, hx, Option.map_eq_none', ih, Bool.not_eq_true]

theorem scanIdx_eq_some {α : Type} (p : α → Bool) (d : α) (l : List α) (i : Nat)
    (h : scanIdx p l = some i) :
    i < l.length ∧ p (l.getD i d) = true ∧ ∀ k, k < i → p (l.getD k d) = false := by
  induction l generalizing i with
  | nil => simp [scanIdx] at h
  | cons x xs ih =>
    by_cases hx : p x
    · simp [scanIdx, hx] at h
      subst h
      exact ⟨Nat.succ_pos _, by simpa using hx,
        fun k hk => absurd hk (Nat.not_lt_zero k)⟩
    · simp [scanIdx, hx, Option.map_eq_some'] at h
      obtain ⟨j, hj, rfl⟩ := h
      obtain ⟨hlen, hp, hbefore⟩ := ih j hj
      refine ⟨Nat.succ_lt_succ hlen, by simpa using hp, ?_⟩
      intro k hk
      cases k with
      | zero => simpa using Bool.not_eq_true (p x) ▸ hx
      | succ m =>
        have := hbefore m (Nat.lt_of_succ_lt_succ hk)
        simpa using this

theorem scanIdx_eq_some_of {α : Type} (p : α → Bool) (d : α) (l : List α) (i : Nat)
    (hi : i < l.length) (hp : p (l.getD i d) = true)
    (hbefore : ∀ k, k < i → p (l.getD k d) = false) :
    scanIdx p l = some i := by
  induction l generalizing i with
  | nil => simp at hi
  | cons x xs ih =>
    cases i with
    | zero =>
      have hx : p x = true := by simpa using hp
      simp [scanIdx, hx]
    | succ j =>
      have hx : p x = false := hbefore 0 (Nat.succ_pos j)
      have hrec : scanIdx p xs = some j := by
        refine ih j (Nat.lt_of_succ_lt_succ hi) (by simpa using hp) ?_
        intro k hk
        have := hbefore (k + 1) (Nat.succ_lt_succ hk)
        simpa using this
      simp [scanIdx, hx, hrec]

theorem scanIdx_isSome_of_mem {α : Type} (p : α → Bool) (l : List α) (x : α)
    (hx : x ∈ l) (hp : p x = true) : ∃ i, scanIdx p l = some i := by
  cases h : scanIdx p l with
  | none =>
    rw [scanIdx_eq_none_iff] at h
    exact absurd (h x hx) (by simp [hp])
  | some i => exact ⟨i, rfl⟩

theorem matchPred_eq_true {name : String} {e : ServiceEntry}
    (h : matchPred name e = true) : entryActive e = true ∧ e.name = name := by
  simp [matchPred] at h
  exact h

theorem match_unique {l : List ServiceEntry} (hwf : NamesOk l) {name : String}
    {i j : Nat} (hi : i < l.length) (hj : j < l.length)
    (hpi : matchPred name (l.getD i emptyEntry) = true)
    (hpj : matchPred name (l.getD j emptyEntry) = true) : i = j := by
  by_contra hne
  obtain ⟨hai, hni⟩ := matchPred_eq_true hpi
  obtain ⟨haj, hnj⟩ := matchPred_eq_true hpj
  exact hwf i j hi hj hne hai haj (hni.trans hnj.symm)

/-- C5: register_service on a valid registry with a non-empty name: fails
when an active entry with the same name exists and its PID is alive; reuses
that entry's slot (overwriting it with the new fields and the wall-clock
timestamp) when it exists but its PID is dead; otherwise fills the first
empty-or-dead slot (bumping count while below max_services); and fails
(Full) when no matching entry and no empty-or-dead slot exists.  The table
is assumed well-formed (active names pairwise distinct), which register
itself maintains from an empty table. -/
theorem C5_register_service
    (alive : Int → Bool) (now : Int) (name ctrl reply : String) (pid : Int)
    (l : List ServiceEntry) (count : Nat)
    (hwf : NamesOk l) (hname : name ≠ "") :
    ((∃ e ∈ l, matchPred name e = true ∧ entryAlive alive e = true) →
      register_service alive now name ctrl reply pid l count = (false, l, count))
    ∧ (∀ i, i < l.length →
        matchPred name (l.getD i emptyEntry) = true →
        entryAlive alive (l.getD i emptyEntry) = false →
        register_service alive now name ctrl reply pid l count =
          (true, l.set i (fill_entry now name ctrl reply pid), count))
    ∧ ((∀ e ∈ l, matchPred name e = false) →
        ∀ j, j < l.length →
          slotFree alive (l.getD j emptyEntry) = true →
          (∀ k, k < j → slotFree alive (l.getD k emptyEntry) = false) →
          register_service alive now name ctrl reply pid l count =
            (true, l.set j (fill_entry now name ctrl reply pid),
              if count < max_services then count + 1 else count))
    ∧ ((∀ e ∈ l, matchPred name e = false) →
        (∀ e ∈ l, slotFree alive e = false) →
        register_service alive now name ctrl reply pid l count = (false, l, count))
    ∧ (fill_entry now name ctrl reply pid).registered_at = now := by
  refine ⟨?_, ?_, ?_, ?_, rfl⟩
  · rintro ⟨e, he, hm, ha⟩
    obtain ⟨j, hj, rfl⟩ := List.mem_iff_getElem.mp he
    obtain ⟨i, hi⟩ := scanIdx_isSome_of_mem (matchPred name) l _ he hm
    obtain ⟨hilen, hpi, _⟩ := scanIdx_eq_some (matchPred name) emptyEntry l i hi
    have hij : i = j := match_unique hwf hilen hj hpi
      (by rw [List.getD_eq_getElem l emptyEntry hj]; exact hm)
    have halive : entryAlive alive (l.getD i emptyEntry) = true := by
      rw [hij, List.getD_eq_getElem l emptyEntry hj]
      exact ha
    simp [List.getD] at halive
    simp [register_service, hname, hi, halive]
  · intro i hi hm hdead
    have hscan : scanIdx (matchPred name) l = some i := by
      refine scanIdx_eq_some_of _ emptyEntry l i hi hm ?_
      intro k hk
      by_contra hkp
      have hkp2 : matchPred name (l.getD k emptyEntry) = true := by
        simpa using hkp
      have := match_unique hwf (Nat.lt_trans hk hi) hi hkp2 hm
      omega
    have hdead2 := hdead
    simp [List.getD] at hdead2
    simp [register_service, hname, hscan, hdead2]
  · intro hnomatch j hj hfree hbefore
    have h1 : scanIdx (matchPred name) l = none :=
      (scanIdx_eq_none_iff _ l).mpr hnomatch
    have h2 : scanIdx (fun e => slotFree alive e) l = some j :=
      scanIdx_eq_some_of _ emptyEntry l j hj hfree hbefore
    simp [register_service, hname, h1, h2]
  · intro hnomatch hnofree
    have h1 : scanIdx (matchPred name) l = none :=
      (scanIdx_eq_none_iff _ l).mpr hnomatch
    have h2 : scanIdx (fun e => slotFree alive e) l = none :=
      (scanIdx_eq_none_iff _ l).mpr hnofree
    simp [register_service, hname, h1, h2]

def wReg : ServiceEntry := ⟨"a", "x", "y", 3, 50, 0⟩

def wAlive : Int → Bool := fun p => p == 3

/-- Witness for C5 at a concrete registry: a matching active entry with a
live PID makes register_service fail. -/
theorem C5_register_service_witness :
    register_service wAlive 100 "a" "c" "r" 9 [wReg] 1 = (false, [wReg], 1) := by
  have hwf : NamesOk [wReg] := by
    intro i j hi hj hne _ _
    simp at hi hj
    exact absurd (show i = j by omega) hne
  exact (C5_register_service wAlive 100 "a" "c" "r" 9 [wReg] 1 hwf
    (by decide)).1 ⟨wReg, by decide, by decide, by decide⟩

theorem registry_find_some (alive : Int → Bool) (name : String) :
    ∀ (l : List ServiceEntry) (e : ServiceEntry),
      (registry_find alive name l).1 = some e →
      e ∈ l ∧ matchPred name e = true ∧ entryAlive alive e = true := by
  intro l
  induction l with
  | nil => intro e h; simp [registry_find] at h
  | cons x xs ih =>
    intro e h
    by_cases hm : matchPred name x
    · by_cases ha : entryAlive alive x
      · simp [registry_find, hm, ha] at h
        subst h
        exact ⟨List.mem_cons_self x xs, hm, ha⟩
      · simp [registry_find, hm, ha] at h
        obtain ⟨hmem, hm2, ha2⟩ := ih e h
        exact ⟨List.mem_cons_of_mem x hmem, hm2, ha2⟩
    · simp [registry_find, hm] at h
      obtain ⟨hmem, hm2, ha2⟩ := ih e h
      exact ⟨List.mem_cons_of_mem x hmem, hm2, ha2⟩

theorem registry_find_isSome (alive : Int → Bool) (name : String) :
    ∀ l : List ServiceEntry,
      (registry_find alive name l).1.isSome =
        l.any (fun e => matchPred name e && entryAlive alive e) := by
  intro l
  induction l with
  | nil => rfl
  | cons x xs ih =>
    by_cases hm : matchPred name x <;> by_cases ha : entryAlive alive x <;>
      simp [registry_find, hm, ha, ih]

theorem registry_find_none_map (alive : Int → Bool) (name : String) :
    ∀ l : List ServiceEntry,
      (∀ e ∈ l, ¬(matchPred name e = true ∧ entryAlive alive e = true)) →
      (registry_find alive name l).1 = none ∧
      (registry_find alive name l).2 =
        l.map (fun e => if matchPred name e = true then emptyEntry else e) := by
  intro l
  induction l with
  | nil => intro _; exact ⟨rfl, rfl⟩
  | cons x xs ih =>
    intro hall
    have hx := hall x (List.mem_cons_self x xs)
    have hxs : ∀ e ∈ xs, ¬(matchPred name e = true ∧ entryAlive alive e = true) :=
      fun e he => hall e (List.mem_cons_of_mem x he)
    obtain ⟨h1, h2⟩ := ih hxs
    by_cases hm : matchPred name x
    · have ha : entryAlive alive x = false := by
        cases h : entryAlive alive x
        · rfl
        · exact absurd ⟨hm, h⟩ hx
      simp [registry_find, hm, ha, h1, h2]
    · simp [registry_find, hm, h1, h2]

/-- C6 (amended): find returns a copy of a matching active entry whose PID
is alive, or none exactly when no such entry exists; every MATCHING active
entry with a dead PID scanned before a live hit is zeroed (in particular,
when no live match exists, all matching entries are zeroed and find returns
none), and a zeroed slot is inactive, hence reusable.  Non-matching dead
entries are not touched by find. -/
theorem C6_find_gc (alive : Int → Bool) (name : String) (l : List ServiceEntry) :
    (∀ e, (registry_find alive name l).1 = some e →
      e ∈ l ∧ matchPred name e = true ∧ entryAlive alive e = true)
    ∧ ((registry_find alive name l).1.isSome =
        l.any (fun e => matchPred name e && entryAlive alive e))
    ∧ ((∀ e ∈ l, ¬(matchPred name e = true ∧ entryAlive alive e = true)) →
        (registry_find alive name l).1 = none ∧
        (registry_find alive name l).2 =
          l.map (fun e => if matchPred name e = true then emptyEntry else e))
    ∧ entryActive emptyEntry = false :=
  ⟨fun e h => registry_find_some alive name l e h,
   registry_find_isSome alive name l,
   registry_find_none_map alive name l,
   by decide⟩

def cGone : ServiceEntry := ⟨"gone", "", "", 5, 0, 0⟩

/-- Witness for C6 (amended) at a concrete registry: the only entry matches
the name but its PID is dead, so find returns none and zeroes the slot. -/
theorem C6_find_gc_witness :
    (registry_find wAlive "gone" [cGone]).1 = none ∧
    (registry_find wAlive "gone" [cGone]).2 = [emptyEntry] := by
  have h := (C6_find_gc wAlive "gone" [cGone]).2.2.1 (by decide)
  refine ⟨h.1, ?_⟩
  rw [h.2]
  decide

def cDeadOther : ServiceEntry := ⟨"other", "", "", 5, 0, 0⟩

def cLiveSvc : ServiceEntry := ⟨"svc", "c", "r", 7, 0, 0⟩

def cAlive7 : Int → Bool := fun p => p == 7

/-- Counterexample to C6 as stated: find("svc") scans past the entry named
"other", whose slot is active but whose PID 5 is dead, and does NOT zero it
(the code only zeroes entries whose name matches the query), so not every
active-but-dead entry is garbage-collected during the scan. -/
theorem C6_counterexample :
    (registry_find cAlive7 "svc" [cDeadOther, cLiveSvc]).1 = some cLiveSvc
    ∧ (registry_find cAlive7 "svc" [cDeadOther, cLiveSvc]).2.getD 0 emptyEntry
        = cDeadOther
    ∧ entryActive cDeadOther = true
    ∧ entryAlive cAlive7 cDeadOther = false := by
  decide

theorem mapWithIdx_map {α β γ : Type} (g : Nat → β → γ) (f : α → β)
    (k : Nat) (l : List α) :
    mapWithIdx g k (l.map f) = mapWithIdx (fun j x => g j (f x)) k l := by
  induction l generalizing k with
  | nil => rfl
  | cons x xs ih => simp [mapWithIdx, List.map, ih]

theorem mapWithIdx_mapWithIdx {α β γ : Type} (g : Nat → β → γ)
    (f : Nat → α → β) (k : Nat) (l : List α) :
    mapWithIdx g k (mapWithIdx f k l) =
      mapWithIdx (fun j x => g j (f j x)) k l := by
  induction l generalizing k with
  | nil => rfl
  | cons x xs ih => simp [mapWithIdx, ih]

theorem mapWithIdx_congr {α β : Type} (f g : Nat → α → β) (k : Nat)
    (l : List α) (h : ∀ j x, f j x = g j x) :
    mapWithIdx f k l = mapWithIdx g k l := by
  induction l generalizing k with
  | nil => rfl
  | cons x xs ih => simp [mapWithIdx, h, ih]

theorem scanIdx_map {α β : Type} (p : β → Bool) (f : α → β) (l : List α) :
    scanIdx p (l.map f) = scanIdx (fun x => p (f x)) l := by
  induction l with
  | nil => rfl
  | cons x xs ih => simp [scanIdx, List.map, ih]

theorem scan_mark_alive (x : MInstance) : (scan_mark x).alive = x.alive := by
  simp only [scan_mark]
  split <;> rfl

theorem first_alive_scan (l : List MInstance) :
    first_alive_idx (scan_instances l) = first_alive_idx l := by
  unfold first_alive_idx scan_instances
  rw [scanIdx_map]
  congr 1
  funext x
  exact scan_mark_alive x

theorem failover_needed_iff (l : List MInstance) :
    failover_needed l = true ↔
      ∃ i ∈ l, i.role = InstanceRole.primary ∧ i.alive = false := by
  simp [failover_needed, List.any_eq_true]

theorem health_check_fst (respawnOk : Nat → Bool) (autoRespawn : Bool)
    (g : GroupSt) :
    (health_check respawnOk autoRespawn g).1 = failover_needed g.instances := by
  by_cases hfo : failover_needed g.instances
  · cases h : (elect_primary_group (scan_instances g.instances)).2 <;>
      simp [health_check, hfo, h]
  · simp [health_check, hfo]

theorem hc_point_elect (i0 j : Nat) (x : MInstance) :
    elect_fun i0 j (scan_mark x) =
      (if x.alive = true then
        (if j = i0 then MInstance.mk InstanceRole.primary x.alive
         else MInstance.mk InstanceRole.standby x.alive)
       else MInstance.mk InstanceRole.dead x.alive) := by
  rcases x with ⟨r, a⟩
  cases a
  · rcases r <;> simp [scan_mark, elect_fun]
  · rcases r <;> simp [scan_mark, elect_fun]

theorem hc_point_respawn (ro : Nat → Bool) (i0 j : Nat) (x : MInstance) :
    respawn_fun ro j (elect_fun i0 j (scan_mark x)) =
      (if x.alive = true then
        (if j = i0 then MInstance.mk InstanceRole.primary x.alive
         else MInstance.mk InstanceRole.standby x.alive)
       else
        (if ro j = true then MInstance.mk InstanceRole.standby true
         else MInstance.mk InstanceRole.dead x.alive)) := by
  rw [hc_point_elect]
  rcases x with ⟨r, a⟩
  cases a
  · by_cases hro : ro j = true <;> simp [respawn_fun, hro]
  · by_cases hj : j = i0 <;> simp [respawn_fun, hj]

/-- C7 (amended): health_check returns true iff a formerly-live primary is
no longer alive.  When it does and some instance is alive, elect_primary
has run on the post-scan state: the lowest-index alive instance holds
primary, every other alive instance holds standby, and each dead slot is
respawned as an alive standby when auto_respawn is set and the respawn
succeeds (such a standby may sit at a lower index than the primary),
remaining dead otherwise.  When no instance is alive, every instance is
marked dead and the group has no primary. -/
theorem C7_health_check (respawnOk : Nat → Bool) (autoRespawn : Bool)
    (g : GroupSt) :
    ((health_check respawnOk autoRespawn g).1 = true ↔
      ∃ i ∈ g.instances, i.role = InstanceRole.primary ∧ i.alive = false)
    ∧ (∀ i0, failover_needed g.instances = true →
        first_alive_idx g.instances = some i0 →
        (health_check respawnOk autoRespawn g).2.instances =
          mapWithIdx (fun j x =>
            if x.alive = true then
              (if j = i0 then MInstance.mk InstanceRole.primary x.alive
               else MInstance.mk InstanceRole.standby x.alive)
            else
              (if autoRespawn && respawnOk j then
                MInstance.mk InstanceRole.standby true
               else MInstance.mk InstanceRole.dead x.alive)) 0 g.instances
        ∧ (health_check respawnOk autoRespawn g).2.primary_idx = some i0)
    ∧ (failover_needed g.instances = true →
        first_alive_idx g.instances = none →
        (health_check respawnOk autoRespawn g).2.instances =
          scan_instances g.instances
        ∧ (health_check respawnOk autoRespawn g).2.primary_idx = none) := by
  refine ⟨?_, ?_, ?_⟩
  · rw [health_check_fst]
    exact failover_needed_iff g.instances
  · intro i0 hfo h0
    have h0s : first_alive_idx (scan_instances g.instances) = some i0 := by
      rw [first_alive_scan]
      exact h0
    have hel : (elect_primary_group (scan_instances g.instances)).2 = some i0 := by
      simp [elect_primary_group, h0s]
    have hel1 : (elect_primary_group (scan_instances g.instances)).1 =
        mapWithIdx (elect_fun i0) 0 (scan_instances g.instances) := by
      simp [elect_primary_group, h0s]
    constructor
    · simp only [health_check, hfo, if_true, hel, hel1]
      cases autoRespawn with
      | false =>
        simp only [if_false, Bool.false_and]
        unfold scan_instances
        rw [mapWithIdx_map]
        exact mapWithIdx_congr _ _ 0 g.instances (fun j x => hc_point_elect i0 j x)
      | true =>
        simp only [if_true, Bool.true_and]
        unfold respawn_dead scan_instances
        rw [mapWithIdx_map, mapWithIdx_mapWithIdx]
        exact mapWithIdx_congr _ _ 0 g.instances
          (fun j x => hc_point_respawn respawnOk i0 j x)
    · simp [health_check, hfo, hel]
  · intro hfo h0
    have h0s : first_alive_idx (scan_instances g.instances) = none := by
      rw [first_alive_scan]
      exact h0
    have hel : (elect_primary_group (scan_instances g.instances)).2 = none := by
      simp [elect_primary_group, h0s]
    have hel1 : (elect_primary_group (scan_instances g.instances)).1 =
        scan_instances g.instances := by
      simp [elect_primary_group, h0s]
    constructor
    · simp [health_check, hfo, hel, hel1]
    · simp [health_check, hfo, hel]

def cGroup : GroupSt :=
  ⟨[⟨InstanceRole.primary, false⟩, ⟨InstanceRole.standby, true⟩], some 0⟩

def cRespawn : Nat → Bool := fun _ => true

/-- Counterexample to C7 as stated: with auto_respawn on and a successful
respawn, health_check after the death of the primary at index 0 returns
true, but the final state has the respawned ALIVE standby at index 0 below
the new primary at index 1 — the alive instance with the lowest index does
not hold the primary role. -/
theorem C7_counterexample :
    (health_check cRespawn true cGroup).1 = true
    ∧ ((health_check cRespawn true cGroup).2.instances.getD 0
        (MInstance.mk InstanceRole.dead false)).alive = true
    ∧ ((health_check cRespawn true cGroup).2.instances.getD 0
        (MInstance.mk InstanceRole.dead false)).role = InstanceRole.standby
    ∧ ((health_check cRespawn true cGroup).2.instances.getD 1
        (MInstance.mk InstanceRole.dead false)).role = InstanceRole.primary := by
  decide

/-- Witness for C7 (amended) at the same concrete group: the failover is
reported, instance 1 (the lowest-index ALIVE instance at election time)
becomes primary and the dead slot 0 is respawned as an alive standby. -/
theorem C7_health_check_witness :
    (health_check cRespawn true cGroup).2.instances =
      [MInstance.mk InstanceRole.standby true,
       MInstance.mk InstanceRole.primary true]
    ∧ (health_check cRespawn true cGroup).2.primary_idx = some 1 := by
  have h := (C7_health_check cRespawn true cGroup).2.1 1 (by decide) (by decide)
  refine ⟨?_, h.2⟩
  rw [h.1]
  decide

/-- C8: for every requested payload size s > 0, the total mapped size of a
created segment is s rounded up to a multiple of the attach-counter slot's
alignment (the unique multiple R of info_align with s <= R < s +
info_align) plus the slot size, and the attach counter sits at offset
total - info_size, immediately after the rounded payload. -/
theorem C8_segment_layout (s : Nat) (hs : 0 < s) :
    ∃ R, get_mem_total s = some (R + info_size)
      ∧ info_align ∣ R
      ∧ s ≤ R
      ∧ R < s + info_align
      ∧ acc_offset (R + info_size) = R := by
  refine ⟨(((s - 1) / info_align) + 1) * info_align, ?_, ?_, ?_, ?_, ?_⟩
  · have hs0 : ¬s = 0 := by omega
    simp [get_mem_total, hs0, calc_size]
  · exact dvd_mul_left info_align _
  · simp only [info_align]
    omega
  · simp only [info_align]
    omega
  · simp only [acc_offset]
    omega

/-- Witness for C8 at s = 5: the payload is rounded to 8 bytes and the
counter slot brings the total to 12, with the counter at offset 8. -/
theorem C8_segment_layout_witness :
    0 < 5 ∧ ∃ R, get_mem_total 5 = some (R + info_size)
      ∧ info_align ∣ R
      ∧ 5 ≤ R
      ∧ R < 5 + info_align
      ∧ acc_offset (R + info_size) = R :=
  ⟨by decide, C8_segment_layout 5 (by decide)⟩

theorem semaphore_post_mod (n : Nat) : ∀ c : Nat, c < U32 →
    semaphore_post c n = (c + n) % U32 := by
  induction n with
  | zero =>
    intro c hc
    simp [semaphore_post, Nat.mod_eq_of_lt hc]
  | succ m ih =>
    intro c hc
    have h1 : post_step c < U32 := Nat.mod_lt _ (by simp [U32])
    have h2 := ih (post_step c) h1
    simp only [post_step] at h2
    simp only [semaphore_post, post_step, h2]
    rw [Nat.mod_add_mod]
    congr 1
    omega

theorem semaphore_wait_ok (env : SemEnv) (hasDeadline : Bool) :
    ∀ fuel k n, semaphore_wait env hasDeadline fuel k = some (SemResult.ok n) →
      ∃ m, 0 < env.load m ∧ n = env.load m - 1 := by
  intro fuel
  induction fuel with
  | zero => intro k n h; simp [semaphore_wait] at h
  | succ f ih =>
    intro k n h
    by_cases hpos : 0 < env.load k
    · simp [semaphore_wait, hpos] at h
      exact ⟨k, hpos, h.symm⟩
    · simp only [semaphore_wait, if_neg hpos] at h
      cases hasDeadline with
      | false => exact ih (k + 1) n (by simpa using h)
      | true =>
        simp only [if_true] at h
        by_cases hdl : env.deadlineHit k
        · simp [hdl] at h
        · simp only [hdl, if_false] at h
          by_cases hpk : env.parkRetry k
          · exact ih (k + 1) n (by simpa [hpk] using h)
          · simp [hpk] at h

theorem sem_exec_int_nonneg (ops : List SemOp) :
    ∀ c : Int, 0 ≤ c → 0 ≤ sem_exec_int ops c := by
  induction ops with
  | nil => intro c hc; exact hc
  | cons op rest ih =>
    intro c hc
    refine ih (sem_step_int c op) ?_
    cases op with
    | wait =>
      simp only [sem_step_int]
      split
      · omega
      · exact hc
    | post n =>
      simp only [sem_step_int]
      positivity

/-- C9: the semaphore count never goes below zero.  A wait that succeeds
decremented exactly one observed strictly positive value of the count (at
zero it parks and retries rather than decrementing, so the 32-bit value
cannot wrap below zero: the wrapping decrement agrees with the exact one);
each post(n) adds exactly n to the count (mod 2^32, and exactly n whenever
no 32-bit overflow occurs); and under every sequence of wait and post
operations the exact integer count stays non-negative. -/
theorem C9_semaphore_nonneg :
    (∀ (env : SemEnv) (hasDeadline : Bool) (fuel k n : Nat),
      semaphore_wait env hasDeadline fuel k = some (SemResult.ok n) →
        ∃ m, 0 < env.load m ∧ n = env.load m - 1)
    ∧ (∀ cur : Nat, 0 < cur → cur < U32 →
        (cur + (U32 - 1)) % U32 = cur - 1)
    ∧ (∀ c n : Nat, c < U32 →
        semaphore_post c n = (c + n) % U32
        ∧ (c + n < U32 → semaphore_post c n = c + n))
    ∧ (∀ (c : Nat), ((sem_step c SemOp.wait : Nat) : Int) =
        sem_step_int (c : Int) SemOp.wait)
    ∧ (∀ ops : List SemOp, ∀ c : Int, 0 ≤ c → 0 ≤ sem_exec_int ops c) := by
  refine ⟨fun env hd fuel k n h => semaphore_wait_ok env hd fuel k n h,
    ?_, ?_, ?_, fun ops c hc => sem_exec_int_nonneg ops c hc⟩
  · intro cur h1 h2
    have hU : 1 ≤ U32 := by norm_num [U32]
    have h3 : cur + (U32 - 1) = (cur - 1) + U32 := by omega
    rw [h3, Nat.add_mod_right]
    exact Nat.mod_eq_of_lt (by omega)
  · intro c n hc
    refine ⟨semaphore_post_mod n c hc, fun hlt => ?_⟩
    rw [semaphore_post_mod n c hc]
    exact Nat.mod_eq_of_lt hlt
  · intro c
    simp only [sem_step, sem_step_int]
    split
    · next h =>
      rw [if_pos (by exact_mod_cast h)]
      omega
    · next h =>
      rw [if_neg (by exact_mod_cast h)]

def wSemEnv : SemEnv := ⟨fun _ => 3, fun _ => false, fun _ => true⟩

/-- Witness for C9: with the count observed at 3, wait succeeds and writes
2, which is indeed one less than an observed positive value. -/
theorem C9_semaphore_nonneg_witness :
    semaphore_wait wSemEnv true 1 0 = some (SemResult.ok 2)
    ∧ ∃ m, 0 < wSemEnv.load m ∧ 2 = wSemEnv.load m - 1 :=
  ⟨by decide, C9_semaphore_nonneg.1 wSemEnv true 1 0 2 (by decide)⟩

theorem try_recover_success_iff (alive : Int → Bool) (holder : Int)
    (oldState : Nat) :
    (try_recover_dead_holder alive holder oldState).success = true ↔
      holder ≠ 0 ∧ is_process_alive alive holder = false := by
  by_cases h0 : holder = 0
  · simp [try_recover_dead_holder, h0]
  · by_cases ha : is_process_alive alive holder = true
    · simp [try_recover_dead_holder, h0, ha]
    · simp [try_recover_dead_holder, h0, ha]

theorem deadline_step_tried (env : LockEnv) (st : LockCtrs) :
    (deadline_step env st).2.tried = true := by
  by_cases h : st.tried = true
  · simp [deadline_step, h]
  · simp [deadline_step, h]

theorem deadline_step_AttOk (env : LockEnv) (st : LockCtrs) (h : AttOk st) :
    AttOk (deadline_step env st).2 := by
  by_cases ht : st.tried = true
  · simpa [deadline_step, ht] using h
  · have h0 : st.attempts.length = 0 := by simpa [AttOk, ht] using h
    simp [deadline_step, ht, AttOk, h0]

theorem deadline_step_retry_iff (env : LockEnv) (st : LockCtrs) :
    (deadline_step env st).1 = TmDecision.retry ↔
      st.tried = false ∧
      (try_recover_dead_holder env.alive (env.recHolder st.recIdx)
        (env.recOldState st.recIdx)).success = true := by
  by_cases ht : st.tried = true
  · simp [deadline_step, ht]
  · by_cases hs : (try_recover_dead_holder env.alive (env.recHolder st.recIdx)
        (env.recOldState st.recIdx)).success = true
    · simp [deadline_step, ht, hs]
    · simp [deadline_step, ht, hs]

theorem dl_branch_AttOk (env : LockEnv) (st : LockCtrs) (h : AttOk st) :
    AttOk (dl_branch env st).st := by
  by_cases hr : (deadline_step env st).1 = TmDecision.retry
  · simpa [dl_branch, hr, LockStep.st] using deadline_step_AttOk env st h
  · simpa [dl_branch, hr, LockStep.st] using deadline_step_AttOk env st h

theorem dl_branch_timeout_tried (env : LockEnv) (st st1 : LockCtrs)
    (h : dl_branch env st = LockStep.timeout st1) : st1.tried = true := by
  by_cases hr : (deadline_step env st).1 = TmDecision.retry
  · simp [dl_branch, hr] at h
  · simp [dl_branch, hr] at h
    rw [← h]
    exact deadline_step_tried env st

theorem lock_iter_shape (env : LockEnv) (hd : Bool) (st0 : LockCtrs) :
    (∃ st1, (lock_iter env hd st0 = LockStep.acquired st1
              ∨ lock_iter env hd st0 = LockStep.again st1)
      ∧ st1.tried = st0.tried ∧ st1.attempts = st0.attempts)
    ∨ (∃ stp, lock_iter env hd st0 = dl_branch env stp
      ∧ stp.tried = st0.tried ∧ stp.attempts = st0.attempts) := by
  simp only [lock_iter]
  repeat' split
  all_goals
    first
    | exact Or.inl ⟨_, Or.inl rfl, rfl, rfl⟩
    | exact Or.inl ⟨_, Or.inr rfl, rfl, rfl⟩
    | exact Or.inr ⟨_, rfl, rfl, rfl⟩

theorem lock_iter_AttOk (env : LockEnv) (hd : Bool) (st0 : LockCtrs)
    (h : AttOk st0) : AttOk (lock_iter env hd st0).st := by
  rcases lock_iter_shape env hd st0 with
    ⟨st1, hor, ht, ha⟩ | ⟨stp, heq, ht, ha⟩
  · have h1 : AttOk st1 := by
      rw [AttOk, ht, ha]
      exact h
    cases hor with
    | inl he => rw [he]; exact h1
    | inr he => rw [he]; exact h1
  · have h1 : AttOk stp := by
      rw [AttOk, ht, ha]
      exact h
    rw [heq]
    exact dl_branch_AttOk env stp h1

theorem lock_iter_timeout_tried (env : LockEnv) (hd : Bool)
    (st0 st1 : LockCtrs) (h : lock_iter env hd st0 = LockStep.timeout st1) :
    st1.tried = true := by
  rcases lock_iter_shape env hd st0 with
    ⟨st2, hor, _, _⟩ | ⟨stp, heq, _, _⟩
  · cases hor with
    | inl he => rw [he] at h; cases h
    | inr he => rw [he] at h; cases h
  · rw [heq] at h
    exact dl_branch_timeout_tried env stp st1 h

theorem lock_loop_AttOk (env : LockEnv) (hd : Bool) :
    ∀ fuel st, AttOk st → AttOk (lock_loop env hd fuel st).2 := by
  intro fuel
  induction fuel with
  | zero => intro st h; simpa [lock_loop] using h
  | succ f ih =>
    intro st h
    have hit := lock_iter_AttOk env hd st h
    simp only [lock_loop]
    cases hcase : lock_iter env hd st with
    | acquired st1 =>
      rw [hcase] at hit
      exact hit
    | timeout st1 =>
      rw [hcase] at hit
      exact hit
    | again st1 =>
      rw [hcase] at hit
      exact ih st1 hit

theorem lock_loop_false_tried (env : LockEnv) (hd : Bool) :
    ∀ fuel st, (lock_loop env hd fuel st).1 = some false →
      (lock_loop env hd fuel st).2.tried = true := by
  intro fuel
  induction fuel with
  | zero => intro st h; simp [lock_loop] at h
  | succ f ih =>
    intro st h
    simp only [lock_loop] at h ⊢
    cases hcase : lock_iter env hd st with
    | acquired st1 =>
      rw [hcase] at h
      have h2 : (some true : Option Bool) = some false := h
      simp at h2
    | timeout st1 =>
      exact lock_iter_timeout_tried env hd st st1 hcase
    | again st1 =>
      rw [hcase] at h
      exact ih st1 h

theorem lockInit_AttOk : AttOk lockInit := by
  simp [AttOk, lockInit]

/-- C3: with a finite timeout, dead-owner recovery is attempted at most
once per lock() call; try_recover_dead_holder resets the mutex (state 0,
holder 0, all waiters woken exactly when the prior state was 2) exactly
when holder is nonzero and the OS reports the holder PID as non-existent;
a reached deadline re-attempts acquisition instead of returning TimedOut
exactly when a not-yet-tried recovery succeeds; and whenever lock returns
TimedOut it has attempted recovery exactly once. -/
theorem C3_lock_recovery :
    (∀ (env : LockEnv) (fuel : Nat),
      (mutex_lock env true fuel).2.attempts.length ≤ 1)
    ∧ (∀ (alive : Int → Bool) (holder : Int) (oldState : Nat),
        (try_recover_dead_holder alive holder oldState).success = true ↔
          holder ≠ 0 ∧ is_process_alive alive holder = false)
    ∧ (∀ (alive : Int → Bool) (holder : Int) (oldState : Nat),
        (try_recover_dead_holder alive holder oldState).success = true →
          (try_recover_dead_holder alive holder oldState).newState = 0
          ∧ (try_recover_dead_holder alive holder oldState).newHolder = 0
          ∧ ((try_recover_dead_holder alive holder oldState).wokeAll = true ↔
              oldState = 2))
    ∧ (∀ (env : LockEnv) (st : LockCtrs),
        (deadline_step env st).1 = TmDecision.retry ↔
          st.tried = false ∧
          (try_recover_dead_holder env.alive (env.recHolder st.recIdx)
            (env.recOldState st.recIdx)).success = true)
    ∧ (∀ (env : LockEnv) (fuel : Nat),
        (mutex_lock env true fuel).1 = some false →
        (mutex_lock env true fuel).2.attempts.length = 1) := by
  refine ⟨?_, fun alive holder old => try_recover_success_iff alive holder old,
    ?_, fun env st => deadline_step_retry_iff env st, ?_⟩
  · intro env fuel
    have h := lock_loop_AttOk env true fuel lockInit lockInit_AttOk
    rw [AttOk] at h
    rw [mutex_lock, h]
    split <;> omega
  · intro alive holder old hs
    rw [try_recover_success_iff] at hs
    obtain ⟨h0, ha⟩ := hs
    simp [try_recover_dead_holder, h0, ha]
  · intro env fuel h
    have h1 := lock_loop_AttOk env true fuel lockInit lockInit_AttOk
    have h2 := lock_loop_false_tried env true fuel lockInit h
    rw [AttOk, h2] at h1
    simpa [mutex_lock] using h1

def wLockEnv : LockEnv :=
  ⟨fun _ => false, fun _ => 2, fun _ => true, fun _ => true, fun _ => false,
   fun _ => 7, fun _ => 2, fun _ => true⟩

/-- Witness for C3 at a concrete run: every CAS fails, the state reads 2,
the deadline is already reached, the holder PID 7 is alive, so the single
recovery attempt fails and lock returns TimedOut with exactly one attempt
recorded. -/
theorem C3_lock_recovery_witness :
    (mutex_lock wLockEnv true 1).1 = some false
    ∧ (mutex_lock wLockEnv true 1).2.attempts.length = 1 :=
  ⟨by decide, C3_lock_recovery.2.2.2.2 wLockEnv 1 (by decide)⟩

/-- Counterexample to C10 as stated: when the lock is held (state 1) by a
LIVE process 5, try_lock performs the failing initial CAS and the recovery
attempt, but does NOT retry the CAS (the retry happens only after a
successful recovery), so it does not retry the CAS "exactly once more". -/
theorem C10_counterexample :
    (try_lock_once_mem (MutexMem.mk 1 5)).1 = false
    ∧ (mutex_try_lock (fun _ => true) 9 (MutexMem.mk 1 5)).recoveryAttempts = 1
    ∧ ¬((mutex_try_lock (fun _ => true) 9 (MutexMem.mk 1 5)).casAttempts = 2) := by
  decide

/-- C10 (amended): when the initial CAS 0 to 1 fails, try_lock performs
exactly one dead-holder recovery attempt and retries the CAS exactly once
more when the recovery reset the mutex (and not otherwise); consequently
try_lock succeeds without blocking immediately after the holder process
died (acquiring with state 1 and holder set to the caller), and it returns
false without modifying state or holder when the lock is held by a live
process. -/
theorem C10_try_lock (alive : Int → Bool) (pid : Int) (m : MutexMem)
    (h : m.state ≠ 0) :
    (mutex_try_lock alive pid m).recoveryAttempts = 1
    ∧ (mutex_try_lock alive pid m).casAttempts =
        (if (try_recover_dead_holder alive m.holder m.state).success = true
         then 2 else 1)
    ∧ (is_process_alive alive m.holder = true →
        mutex_try_lock alive pid m = ⟨false, m, 1, 1, false⟩)
    ∧ (m.holder ≠ 0 → is_process_alive alive m.holder = false →
        (mutex_try_lock alive pid m).acquired = true
        ∧ (mutex_try_lock alive pid m).mem = ⟨1, pid⟩) := by
  have hcas : (try_lock_once_mem m).1 = false := by
    simp [try_lock_once_mem, h]
  refine ⟨?_, ?_, ?_, ?_⟩
  · by_cases hs : (try_recover_dead_holder alive m.holder m.state).success = true
    · have hmem : apply_recover m (try_recover_dead_holder alive m.holder m.state)
          = ⟨0, 0⟩ := by
        rw [try_recover_success_iff] at hs
        simp [apply_recover, try_recover_dead_holder, hs.1, hs.2]
      simp [mutex_try_lock, hcas, hs, hmem, try_lock_once_mem, h]
    · simp [mutex_try_lock, hcas, hs]
  · by_cases hs : (try_recover_dead_holder alive m.holder m.state).success = true
    · have hmem : apply_recover m (try_recover_dead_holder alive m.holder m.state)
          = ⟨0, 0⟩ := by
        rw [try_recover_success_iff] at hs
        simp [apply_recover, try_recover_dead_holder, hs.1, hs.2]
      simp [mutex_try_lock, hcas, hs, hmem, try_lock_once_mem, h]
    · simp [mutex_try_lock, hcas, hs]
  · intro halive
    have hs : (try_recover_dead_holder alive m.holder m.state).success = false := by
      rw [Bool.eq_false_iff]
      intro hcon
      rw [try_recover_success_iff] at hcon
      rw [hcon.2] at halive
      cases halive
    simp [mutex_try_lock, hcas, hs]
  · intro h0 hdead
    have hs : (try_recover_dead_holder alive m.holder m.state).success = true :=
      (try_recover_success_iff alive m.holder m.state).mpr ⟨h0, hdead⟩
    have hmem : apply_recover m (try_recover_dead_holder alive m.holder m.state)
        = ⟨0, 0⟩ := by
      simp [apply_recover, try_recover_dead_holder, h0, hdead]
    constructor
    · simp [mutex_try_lock, hcas, hs, hmem, try_lock_once_mem, h]
    · simp [mutex_try_lock, hcas, hs, hmem, try_lock_once_mem, h]

/-- Witness for C10 (amended) at a concrete memory: the lock is held
(state 2) by the dead PID 7, so try_lock recovers and acquires, leaving
state 1 and holder 9. -/
theorem C10_try_lock_witness :
    (mutex_try_lock (fun _ => false) 9 (MutexMem.mk 2 7)).acquired = true
    ∧ (mutex_try_lock (fun _ => false) 9 (MutexMem.mk 2 7)).mem =
        MutexMem.mk 1 9 :=
  (C10_try_lock (fun _ => false) 9 (MutexMem.mk 2 7) (by decide)).2.2.2
    (by decide) (by decide)

theorem cond_loop_timed_acts (env : CondEnv) (snap : Nat) :
    ∀ fuel k r, cond_loop_timed env snap fuel k = some r →
      ∀ a ∈ r.2, a = CondAct.checkDeadline ∨
        ∃ o, a = CondAct.parkOn snap o := by
  intro fuel
  induction fuel with
  | zero => intro k r h; simp [cond_loop_timed] at h
  | succ f ih =>
    intro k r h
    by_cases hdl : env.dl k = true
    · simp [cond_loop_timed, hdl] at h
      intro a ha
      rw [← h] at ha
      simp at ha
      exact Or.inl ha
    · cases hpk : env.park k with
      | woken =>
        simp [cond_loop_timed, hdl, hpk] at h
        intro a ha
        rw [← h] at ha
        simp at ha
        rcases ha with ha | ha
        · exact Or.inl ha
        · exact Or.inr ⟨ParkOutcome.woken, ha⟩
      | spurious =>
        have hstep : cond_loop_timed env snap (f + 1) k =
            (cond_loop_timed env snap f (k + 1)).map
              (fun r => (r.1, CondAct.checkDeadline ::
                CondAct.parkOn snap ParkOutcome.spurious :: r.2)) := by
          simp [cond_loop_timed, hdl, hpk]
        rw [hstep, Option.map_eq_some'] at h
        obtain ⟨r2, hr2, hg⟩ := h
        intro a ha
        rw [← hg] at ha
        simp at ha
        rcases ha with ha | ha | ha
        · exact Or.inl ha
        · exact Or.inr ⟨ParkOutcome.spurious, ha⟩
        · exact ih (k + 1) r2 hr2 a ha
      | timedout =>
        simp [cond_loop_timed, hdl, hpk] at h
        intro a ha
        rw [← h] at ha
        simp at ha
        rcases ha with ha | ha
        · exact Or.inl ha
        · exact Or.inr ⟨ParkOutcome.timedout, ha⟩

theorem cond_loop_inf_acts (env : CondEnv) (snap : Nat) :
    ∀ fuel k r, cond_loop_inf env snap fuel k = some r →
      ∀ a ∈ r.2, a = CondAct.checkDeadline ∨
        ∃ o, a = CondAct.parkOn snap o := by
  intro fuel
  induction fuel with
  | zero => intro k r h; simp [cond_loop_inf] at h
  | succ f ih =>
    intro k r h
    cases hpk : env.park k with
    | woken =>
      simp [cond_loop_inf, hpk] at h
      intro a ha
      rw [← h] at ha
      simp at ha
      exact Or.inr ⟨ParkOutcome.woken, ha⟩
    | spurious =>
      have hstep : cond_loop_inf env snap (f + 1) k =
          (cond_loop_inf env snap f (k + 1)).map
            (fun r => (r.1, CondAct.parkOn snap ParkOutcome.spurious :: r.2)) := by
        simp [cond_loop_inf, hpk]
      rw [hstep, Option.map_eq_some'] at h
      obtain ⟨r2, hr2, hg⟩ := h
      intro a ha
      rw [← hg] at ha
      simp at ha
      rcases ha with ha | ha
      · exact Or.inr ⟨ParkOutcome.spurious, ha⟩
      · exact ih (k + 1) r2 hr2 a ha
    | timedout =>
      simp [cond_loop_inf, hpk] at h
      intro a ha
      rw [← h] at ha
      simp at ha
      exact Or.inr ⟨ParkOutcome.timedout, ha⟩

theorem cond_loop_timed_notified (env : CondEnv) (snap : Nat) :
    ∀ fuel k r, cond_loop_timed env snap fuel k = some r →
      (r.1 = true ↔ CondAct.parkOn snap ParkOutcome.woken ∈ r.2) := by
  intro fuel
  induction fuel with
  | zero => intro k r h; simp [cond_loop_timed] at h
  | succ f ih =>
    intro k r h
    by_cases hdl : env.dl k = true
    · simp [cond_loop_timed, hdl] at h
      rw [← h]
      simp
    · cases hpk : env.park k with
      | woken =>
        simp [cond_loop_timed, hdl, hpk] at h
        rw [← h]
        simp
      | spurious =>
        have hstep : cond_loop_timed env snap (f + 1) k =
            (cond_loop_timed env snap f (k + 1)).map
              (fun r => (r.1, CondAct.checkDeadline ::
                CondAct.parkOn snap ParkOutcome.spurious :: r.2)) := by
          simp [cond_loop_timed, hdl, hpk]
        rw [hstep, Option.map_eq_some'] at h
        obtain ⟨r2, hr2, hg⟩ := h
        rw [← hg]
        simp only [List.mem_cons]
        rw [ih (k + 1) r2 hr2]
        constructor
        · intro hm
          exact Or.inr (Or.inr hm)
        · intro hm
          rcases hm with hm | hm | hm
          · cases hm
          · cases hm
          · exact hm
      | timedout =>
        simp [cond_loop_timed, hdl, hpk] at h
        rw [← h]
        simp

theorem condition_wait_post (env : CondEnv) (isInf : Bool) (fuel : Nat)
    (cv : CondState) (r : CondWaitRes)
    (h : condition_wait env isInf fuel cv = some r) :
    r.mutexHeld = true ∧ r.cv.waiters = cv.waiters ∧ r.cv.seq = cv.seq
    ∧ r.snapshot = cv.seq
    ∧ ∃ mid, r.acts =
        [CondAct.loadSeq cv.seq, CondAct.unlockMutex, CondAct.incWaiters]
          ++ mid ++ [CondAct.decWaiters, CondAct.lockMutexInf]
      ∧ ∀ a ∈ mid, a = CondAct.checkDeadline ∨
          ∃ o, a = CondAct.parkOn cv.seq o := by
  cases isInf with
  | false =>
    cases hl : cond_loop_timed env cv.seq fuel 0 with
    | none => simp [condition_wait, hl] at h
    | some r0 =>
      simp [condition_wait, hl] at h
      rw [← h]
      refine ⟨rfl, by simp, rfl, rfl, r0.2, rfl,
        cond_loop_timed_acts env cv.seq fuel 0 r0 hl⟩
  | true =>
    cases hl : cond_loop_inf env cv.seq fuel 0 with
    | none => simp [condition_wait, hl] at h
    | some r0 =>
      simp [condition_wait, hl] at h
      rw [← h]
      refine ⟨rfl, by simp, rfl, rfl, r0.2, rfl,
        cond_loop_inf_acts env cv.seq fuel 0 r0 hl⟩

/-- C2: condition::wait snapshots seq while still holding the mutex,
releases the mutex, increments waiters, then loops parking on seq with the
snapshot as the expected value: a deadline already reached exits the loop
not-notified, a woken park exits notified, a spurious (EINTR) park loops
again, a timed-out park exits not-notified; afterwards it decrements
waiters and reacquires the mutex with an infinite wait, so the caller
holds the lock on return with the waiter count restored; wait reports
notified exactly when some park on the snapshot returned woken. -/
theorem C2_condition_wait :
    (∀ (env : CondEnv) (snap fuel k : Nat),
      (env.dl k = true →
        cond_loop_timed env snap (fuel + 1) k =
          some (false, [CondAct.checkDeadline]))
      ∧ (env.dl k = false → env.park k = ParkOutcome.woken →
        cond_loop_timed env snap (fuel + 1) k =
          some (true,
            [CondAct.checkDeadline, CondAct.parkOn snap ParkOutcome.woken]))
      ∧ (env.dl k = false → env.park k = ParkOutcome.spurious →
        cond_loop_timed env snap (fuel + 1) k =
          (cond_loop_timed env snap fuel (k + 1)).map
            (fun r => (r.1, CondAct.checkDeadline ::
              CondAct.parkOn snap ParkOutcome.spurious :: r.2)))
      ∧ (env.dl k = false → env.park k = ParkOutcome.timedout →
        cond_loop_timed env snap (fuel + 1) k =
          some (false,
            [CondAct.checkDeadline, CondAct.parkOn snap ParkOutcome.timedout])))
    ∧ (∀ (env : CondEnv) (isInf : Bool) (fuel : Nat) (cv : CondState)
        (r : CondWaitRes), condition_wait env isInf fuel cv = some r →
        r.mutexHeld = true ∧ r.cv.waiters = cv.waiters ∧ r.cv.seq = cv.seq
        ∧ r.snapshot = cv.seq
        ∧ ∃ mid, r.acts =
            [CondAct.loadSeq cv.seq, CondAct.unlockMutex, CondAct.incWaiters]
              ++ mid ++ [CondAct.decWaiters, CondAct.lockMutexInf]
          ∧ ∀ a ∈ mid, a = CondAct.checkDeadline ∨
              ∃ o, a = CondAct.parkOn cv.seq o)
    ∧ (∀ (env : CondEnv) (snap fuel k : Nat) (r : Bool × List CondAct),
        cond_loop_timed env snap fuel k = some r →
        (r.1 = true ↔ CondAct.parkOn snap ParkOutcome.woken ∈ r.2)) := by
  refine ⟨?_, fun env isInf fuel cv r h =>
      condition_wait_post env isInf fuel cv r h,
    fun env snap fuel k r h =>
      cond_loop_timed_notified env snap fuel k r h⟩
  intro env snap fuel k
  refine ⟨fun hdl => by simp [cond_loop_timed, hdl],
    fun hdl hpk => by simp [cond_loop_timed, hdl, hpk],
    fun hdl hpk => by simp [cond_loop_timed, hdl, hpk],
    fun hdl hpk => by simp [cond_loop_timed, hdl, hpk]⟩

def wCondEnv : CondEnv :=
  ⟨fun _ => false, fun k => if k = 0 then ParkOutcome.spurious
    else ParkOutcome.woken⟩

def wCondRes : CondWaitRes :=
  ⟨true, true, ⟨5, 2⟩, 5,
   [CondAct.loadSeq 5, CondAct.unlockMutex, CondAct.incWaiters,
    CondAct.checkDeadline, CondAct.parkOn 5 ParkOutcome.spurious,
    CondAct.checkDeadline, CondAct.parkOn 5 ParkOutcome.woken,
    CondAct.decWaiters, CondAct.lockMutexInf]⟩

/-- Witness for C2 at a concrete timed wait (seq 5, 2 waiters, one
spurious wake then a notification): the mutex is held on return, the
waiter count is restored, the snapshot is the entry seq and the trace has
the claimed shape. -/
theorem C2_condition_wait_witness :
    condition_wait wCondEnv false 3 (CondState.mk 5 2) = some wCondRes
    ∧ wCondRes.mutexHeld = true
    ∧ wCondRes.cv.waiters = (2 : Int)
    ∧ wCondRes.cv.seq = 5
    ∧ wCondRes.snapshot = 5 := by
  have h := C2_condition_wait.2.1 wCondEnv false 3 (CondState.mk 5 2)
    wCondRes (by decide)
  exact ⟨by decide, h.1, h.2.1, h.2.2.1, h.2.2.2.1⟩

end IpcProof
